import Mathlib

/-!
Shallow embedding of the brainfck interpreter (src/brainfck.cpp) and proofs
about its execution engine: the tape, the dispatcher, the loop stack, and
the operation-count guard.

Modelling conventions:
* cells (`unsigned char`) are `Nat` values kept below 256 by taking `% 256`
  exactly where the C++ integral conversions do;
* the input stream is a list of pending bytes (`input.peek () != EOF` is
  "the list is nonempty"); the output stream is the list of bytes written;
* iterators into `slots_` and into the code become indices (`ptr`, `pc`);
* exceptions become an error result that also carries the member / stream
  state at the moment of the throw (in C++ those outlive the `throw`);
* the `for` loop of `execute` becomes `run`, recursing on a fuel argument.
  Each iteration first performs `++operation_count_` and throws once the
  count exceeds `operation_count_max_`, so `opMax + 1 - opCount` fuel is
  always enough: the fuel-exhausted branch is unreachable for the fuel
  `execute` supplies (and coincides with the limit error anyway).
-/

namespace Brainfck

/-- `static const size_t DEFAULT_MAX_OPERATIONS = 100000;` -/
def DEFAULT_MAX_OPERATIONS : Nat := 100000

/-- The four distinct failure modes of the engine (the thrown exceptions). -/
inductive Err where
  | tapeUnderflow
  | bracketUnopened
  | bracketUnclosed
  | opLimit
deriving DecidableEq

/-- The state mutated while `execute` runs: the tape members `slots_` /
`slot_`, the two streams, the local bracket stack `stash` and the local
code cursor `cp` (here `pc`). -/
structure ExecSt where
  tape : List Nat
  ptr : Nat
  input : List Nat
  output : List Nat
  stash : List Nat
  pc : Nat
deriving DecidableEq

/-- Value of the current cell, `*slot_`. -/
def tapeGet (s : ExecSt) : Nat := s.tape.getD s.ptr 0

/-- `increment`: `++*slot_` on an `unsigned char` wraps modulo 256. -/
def increment (s : ExecSt) : ExecSt :=
  { s with tape := s.tape.set s.ptr ((tapeGet s + 1) % 256) }

/-- `decrement`: `--*slot_` on an `unsigned char` wraps modulo 256. -/
def decrement (s : ExecSt) : ExecSt :=
  { s with tape := s.tape.set s.ptr ((tapeGet s + 255) % 256) }

/-- `prev_slot`: throws `std::underflow_error` at the leftmost cell,
otherwise `--slot_`. -/
def prev_slot (s : ExecSt) : Except Err ExecSt :=
  if s.ptr = 0 then .error .tapeUnderflow
  else .ok { s with ptr := s.ptr - 1 }

/-- `next_slot`: when `next (slot_) == end (slots_)` it appends a zero cell
(`slots_.push_back (0)`) and repositions the iterator at the new last cell
(`slot_ = prev (end (slots_))`, index = old length); otherwise `++slot_`. -/
def next_slot (s : ExecSt) : ExecSt :=
  if s.ptr + 1 = s.tape.length then
    { s with tape := s.tape ++ [0], ptr := s.tape.length }
  else
    { s with ptr := s.ptr + 1 }

/-- `send_out`: `out << *slot_`. -/
def send_out (s : ExecSt) : ExecSt :=
  { s with output := s.output ++ [tapeGet s] }

/-- `read_in`: `if (EOF != input.peek ()) *slot_ = input.get ();` — the
assignment to an `unsigned char` cell reduces the byte modulo 256. -/
def read_in (s : ExecSt) : ExecSt :=
  match s.input with
  | [] => s
  | b :: rest => { s with tape := s.tape.set s.ptr (b % 256), input := rest }

/-- The forward scan of `start_loop`: `while (++*it != code_end)` looking
for the first later position holding a closing bracket. `k` is the index
of the head of the remaining code. -/
def scanFrom : List Char → Nat → Option Nat
  | [], _ => none
  | c :: rest, k => if c = ']' then some k else scanFrom rest (k + 1)

/-- Index of the first closing bracket strictly after position `j`. -/
def scanClose (code : List Char) (j : Nat) : Option Nat :=
  scanFrom (code.drop (j + 1)) (j + 1)

/-- `start_loop`: nonzero guard pushes the position of this opening bracket
onto the stash; zero guard scans forward for a closing bracket (no depth
count in the source), repositioning the cursor there, or throws a
bracket-mismatch (no closing) error when the scan reaches the end. -/
def start_loop (code : List Char) (s : ExecSt) : Except Err ExecSt :=
  if tapeGet s ≠ 0 then .ok { s with stash := s.pc :: s.stash }
  else
    match scanClose code s.pc with
    | some k => .ok { s with pc := k }
    | none => .error .bracketUnclosed

/-- `end_loop`: empty stash throws a bracket-mismatch (no opening) error;
nonzero guard rewinds the cursor to the stashed position without popping;
zero guard pops. -/
def end_loop (s : ExecSt) : Except Err ExecSt :=
  match s.stash with
  | [] => .error .bracketUnopened
  | top :: rest =>
    if tapeGet s ≠ 0 then .ok { s with pc := top }
    else .ok { s with stash := rest }

/-- The `switch (*cp)` of `execute`: the eight opcodes, every other
character falls through the switch unchanged. -/
def dispatch (code : List Char) (c : Char) (s : ExecSt) : Except Err ExecSt :=
  if c = '+' then .ok (increment s)
  else if c = '-' then .ok (decrement s)
  else if c = '<' then prev_slot s
  else if c = '>' then .ok (next_slot s)
  else if c = '.' then .ok (send_out s)
  else if c = ',' then .ok (read_in s)
  else if c = '[' then start_loop code s
  else if c = ']' then end_loop s
  else .ok s

/-- The `for (auto cp = code_begin; cp != code_end; ++cp)` loop of
`execute`. `cnt` is `operation_count_`; each iteration increments it and
throws `opLimit` once it exceeds `opMax`. Errors carry the count after its
increment and the state at the throw. The fuel-zero branch is unreachable
for the fuel `execute` passes (the limit guard fires first) and returns
the same limit error. -/
def run (code : List Char) (opMax : Nat) (fuel cnt : Nat) (s : ExecSt) :
    Except (Err × Nat × ExecSt) (Nat × ExecSt) :=
  if h : s.pc < code.length then
    if opMax < cnt + 1 then .error (.opLimit, cnt + 1, s)
    else
      match fuel with
      | 0 => .error (.opLimit, cnt + 1, s)
      | f + 1 =>
        match dispatch code (code.get ⟨s.pc, h⟩) s with
        | .error e => .error (e, cnt + 1, s)
        | .ok s1 => run code opMax f (cnt + 1) { s1 with pc := s1.pc + 1 }
  else .ok (cnt, s)

/-- State carried by either outcome of `run`. -/
def runState : Except (Err × Nat × ExecSt) (Nat × ExecSt) → ExecSt
  | .ok (_, t) => t
  | .error (_, _, t) => t

/-- The persistent members of `context_t`: the tape (`slots_`, `slot_`),
the configured ceiling and the running operation count. -/
structure Ctx where
  slots : List Nat
  slot : Nat
  opMax : Nat
  opCount : Nat
deriving DecidableEq

/-- The constructor `context_t ()`: one zero cell, iterator at it, default
ceiling, zero count. -/
def context_init : Ctx :=
  { slots := [0], slot := 0, opMax := DEFAULT_MAX_OPERATIONS, opCount := 0 }

/-- `set_max_operations`: installs the new ceiling and returns the old. -/
def set_max_operations (ctx : Ctx) (m : Nat) : Ctx × Nat :=
  ({ ctx with opMax := m }, ctx.opMax)

/-- Observable outcome of one `execute` call: the returned count delta or
thrown error, the context afterwards, the bytes written to `out`, and the
bytes left unconsumed on `input`. -/
structure ExecOut where
  result : Except Err Nat
  ctx : Ctx
  output : List Nat
  rest : List Nat

/-- `context_t::execute`: remembers `operation_count_start`, starts a fresh
stash and cursor, runs the dispatch loop, and on success returns
`operation_count_ - operation_count_start`. -/
def execute (ctx : Ctx) (code : List Char) (input : List Nat) : ExecOut :=
  match run code ctx.opMax (ctx.opMax + 1 - ctx.opCount) ctx.opCount
      { tape := ctx.slots, ptr := ctx.slot, input := input, output := [],
        stash := [], pc := 0 } with
  | .ok (n, t) =>
    { result := .ok (n - ctx.opCount),
      ctx := { slots := t.tape, slot := t.ptr, opMax := ctx.opMax, opCount := n },
      output := t.output, rest := t.input }
  | .error (e, n, t) =>
    { result := .error e,
      ctx := { slots := t.tape, slot := t.ptr, opMax := ctx.opMax, opCount := n },
      output := t.output, rest := t.input }

/-- Recognized opcodes of the dispatcher. -/
def isOp (c : Char) : Bool :=
  c = '+' || c = '-' || c = '<' || c = '>' ||
  c = '.' || c = ',' || c = '[' || c = ']'

/-- The pointer addresses an existing cell. -/
def PtrOk (s : ExecSt) : Prop := s.ptr < s.tape.length

/-- Every cell holds a byte value. -/
def CellsOk (s : ExecSt) : Prop := ∀ v ∈ s.tape, v < 256

/-! ### Shape lemmas for the dispatch loop -/

lemma run_done (code : List Char) (opMax fuel cnt : Nat) (s : ExecSt)
    (h : ¬ s.pc < code.length) :
    run code opMax fuel cnt s = .ok (cnt, s) := by
  unfold run
  rw [dif_neg h]

lemma run_limit (code : List Char) (opMax fuel cnt : Nat) (s : ExecSt)
    (h : s.pc < code.length) (hgt : opMax < cnt + 1) :
    run code opMax fuel cnt s = .error (.opLimit, cnt + 1, s) := by
  unfold run
  rw [dif_pos h, if_pos hgt]

lemma run_zero (code : List Char) (opMax cnt : Nat) (s : ExecSt)
    (h : s.pc < code.length) (hle : cnt + 1 ≤ opMax) :
    run code opMax 0 cnt s = .error (.opLimit, cnt + 1, s) := by
  unfold run
  rw [dif_pos h, if_neg (by omega)]

lemma run_succ_err (code : List Char) (opMax f cnt : Nat) (s : ExecSt)
    (e : Err) (h : s.pc < code.length) (hle : cnt + 1 ≤ opMax)
    (hd : dispatch code (code.get ⟨s.pc, h⟩) s = .error e) :
    run code opMax (f + 1) cnt s = .error (e, cnt + 1, s) := by
  unfold run
  rw [dif_pos h, if_neg (by omega)]
  simp only [hd]

lemma run_succ_ok (code : List Char) (opMax f cnt : Nat) (s s1 : ExecSt)
    (h : s.pc < code.length) (hle : cnt + 1 ≤ opMax)
    (hd : dispatch code (code.get ⟨s.pc, h⟩) s = .ok s1) :
    run code opMax (f + 1) cnt s =
      run code opMax f (cnt + 1) { s1 with pc := s1.pc + 1 } := by
  conv_lhs => unfold run
  rw [dif_pos h, if_neg (by omega)]
  simp only [hd]

/-! ### Helpers on the individual operations -/

lemma getD_set_self (l : List Nat) (i v d : Nat) (h : i < l.length) :
    (l.set i v).getD i d = v := by
  simp [List.getD, h]

lemma cellsOk_set (l : List Nat) (i v : Nat) (hv : v < 256)
    (h : ∀ x ∈ l, x < 256) : ∀ x ∈ l.set i v, x < 256 := by
  intro x hx
  rcases List.mem_or_eq_of_mem_set hx with hx | rfl
  · exact h x hx
  · exact hv

lemma start_loop_error_eq (code : List Char) (s : ExecSt) (e : Err)
    (h : start_loop code s = .error e) : e = .bracketUnclosed := by
  unfold start_loop at h
  split at h
  · cases h
  · split at h
    · cases h
    · cases h
      rfl

lemma end_loop_error_eq (s : ExecSt) (e : Err)
    (h : end_loop s = .error e) : e = .bracketUnopened := by
  unfold end_loop at h
  split at h
  · cases h
    rfl
  · split at h <;> cases h

lemma prev_slot_error_iff (s : ExecSt) :
    prev_slot s = .error .tapeUnderflow ↔ s.ptr = 0 := by
  unfold prev_slot
  split <;> simp_all

/-- Any successful dispatch keeps the pointer on an existing cell, never
shrinks the tape, and keeps every cell below 256. -/
lemma dispatch_ok_inv (code : List Char) (c : Char) (s t : ExecSt)
    (hok : dispatch code c s = .ok t) :
    (PtrOk s → PtrOk t) ∧ s.tape.length ≤ t.tape.length ∧
      (CellsOk s → CellsOk t) := by
  unfold dispatch at hok
  split_ifs at hok with h1 h2 h3 h4 h5 h6 h7 h8
  · cases hok
    refine ⟨fun hp => ?_, by simp [increment], fun hc => ?_⟩
    · simpa [increment, PtrOk] using hp
    · exact cellsOk_set _ _ _ (Nat.mod_lt _ (by omega)) hc
  · cases hok
    refine ⟨fun hp => ?_, by simp [decrement], fun hc => ?_⟩
    · simpa [decrement, PtrOk] using hp
    · exact cellsOk_set _ _ _ (Nat.mod_lt _ (by omega)) hc
  · unfold prev_slot at hok
    split at hok
    · cases hok
    · cases hok
      exact ⟨fun hp => by simp [PtrOk] at hp ⊢; omega, le_refl _, fun hc => hc⟩
  · cases hok
    unfold next_slot
    split
    · refine ⟨fun _ => ?_, by simp, fun hc v hv => ?_⟩
      · simp [PtrOk]
      · rcases List.mem_append.mp hv with hv | hv
        · exact hc v hv
        · simp at hv
          omega
    · exact ⟨fun hp => by simp [PtrOk] at hp ⊢; omega, le_refl _, fun hc => hc⟩
  · cases hok
    exact ⟨fun hp => hp, le_refl _, fun hc => hc⟩
  · unfold read_in at hok
    split at hok
    · cases hok
      exact ⟨fun hp => hp, le_refl _, fun hc => hc⟩
    · cases hok
      refine ⟨fun hp => by simpa [PtrOk] using hp, by simp, fun hc => ?_⟩
      exact cellsOk_set _ _ _ (Nat.mod_lt _ (by omega)) hc
  · unfold start_loop at hok
    split at hok
    · cases hok
      exact ⟨fun hp => hp, le_refl _, fun hc => hc⟩
    · split at hok
      · cases hok
        exact ⟨fun hp => hp, le_refl _, fun hc => hc⟩
      · cases hok
  · unfold end_loop at hok
    split at hok
    · cases hok
    · split at hok <;> cases hok <;>
        exact ⟨fun hp => hp, le_refl _, fun hc => hc⟩
  · cases hok
    exact ⟨fun hp => hp, le_refl _, fun hc => hc⟩

/-- The invariants of `dispatch_ok_inv`, carried through the whole dispatch
loop, whichever way it ends. -/
lemma run_inv (code : List Char) (opMax : Nat) :
    ∀ (fuel cnt : Nat) (s : ExecSt),
      (PtrOk s → PtrOk (runState (run code opMax fuel cnt s))) ∧
      s.tape.length ≤ (runState (run code opMax fuel cnt s)).tape.length ∧
      (CellsOk s → CellsOk (runState (run code opMax fuel cnt s))) := by
  intro fuel
  induction fuel with
  | zero =>
    intro cnt s
    by_cases h : s.pc < code.length
    · by_cases hgt : opMax < cnt + 1
      · rw [run_limit code opMax 0 cnt s h hgt]
        exact ⟨fun hp => hp, le_refl _, fun hc => hc⟩
      · rw [run_zero code opMax cnt s h (by omega)]
        exact ⟨fun hp => hp, le_refl _, fun hc => hc⟩
    · rw [run_done code opMax 0 cnt s h]
      exact ⟨fun hp => hp, le_refl _, fun hc => hc⟩
  | succ f ih =>
    intro cnt s
    by_cases h : s.pc < code.length
    · by_cases hgt : opMax < cnt + 1
      · rw [run_limit code opMax (f + 1) cnt s h hgt]
        exact ⟨fun hp => hp, le_refl _, fun hc => hc⟩
      · cases hd : dispatch code (code.get ⟨s.pc, h⟩) s with
        | error e =>
          rw [run_succ_err code opMax f cnt s e h (by omega) hd]
          exact ⟨fun hp => hp, le_refl _, fun hc => hc⟩
        | ok s1 =>
          rw [run_succ_ok code opMax f cnt s s1 h (by omega) hd]
          have hstep := dispatch_ok_inv code (code.get ⟨s.pc, h⟩) s s1 hd
          have hrec := ih (cnt + 1) { s1 with pc := s1.pc + 1 }
          exact ⟨fun hp => hrec.1 (hstep.1 hp), le_trans hstep.2.1 hrec.2.1,
            fun hc => hrec.2.2 (hstep.2.2 hc)⟩
    · rw [run_done code opMax (f + 1) cnt s h]
      exact ⟨fun hp => hp, le_refl _, fun hc => hc⟩

/-- On success the final operation count extends the initial one, and is
still within the ceiling unless no character at all was processed. -/
lemma run_ok_count (code : List Char) (opMax : Nat) :
    ∀ (fuel cnt : Nat) (s : ExecSt) (n : Nat) (t : ExecSt),
      run code opMax fuel cnt s = .ok (n, t) →
      cnt ≤ n ∧ (n = cnt ∨ n ≤ opMax) := by
  intro fuel
  induction fuel with
  | zero =>
    intro cnt s n t hr
    by_cases h : s.pc < code.length
    · by_cases hgt : opMax < cnt + 1
      · rw [run_limit code opMax 0 cnt s h hgt] at hr
        cases hr
      · rw [run_zero code opMax cnt s h (by omega)] at hr
        cases hr
    · rw [run_done code opMax 0 cnt s h] at hr
      cases hr
      exact ⟨le_refl _, Or.inl rfl⟩
  | succ f ih =>
    intro cnt s n t hr
    by_cases h : s.pc < code.length
    · by_cases hgt : opMax < cnt + 1
      · rw [run_limit code opMax (f + 1) cnt s h hgt] at hr
        cases hr
      · cases hd : dispatch code (code.get ⟨s.pc, h⟩) s with
        | error e =>
          rw [run_succ_err code opMax f cnt s e h (by omega) hd] at hr
          cases hr
        | ok s1 =>
          rw [run_succ_ok code opMax f cnt s s1 h (by omega) hd] at hr
          have := ih (cnt + 1) { s1 with pc := s1.pc + 1 } n t hr
          omega
    · rw [run_done code opMax (f + 1) cnt s h] at hr
      cases hr
      exact ⟨le_refl _, Or.inl rfl⟩

/-- Characters outside the eight opcodes fall through the `switch`: the
state is untouched (but the iteration still happened). -/
lemma dispatch_noop (code : List Char) (c : Char) (s : ExecSt)
    (h : isOp c = false) : dispatch code c s = .ok s := by
  unfold isOp at h
  simp only [Bool.or_eq_false_iff, decide_eq_false_iff_not] at h
  unfold dispatch
  rw [if_neg h.1.1.1.1.1.1.1, if_neg h.1.1.1.1.1.1.2, if_neg h.1.1.1.1.1.2,
    if_neg h.1.1.1.1.2, if_neg h.1.1.1.2, if_neg h.1.1.2, if_neg h.1.2,
    if_neg h.2]

/-- Running a program of no-op characters only: every character still costs
one operation, the count grows by exactly the number of characters left,
and the state is unchanged apart from the cursor reaching the end. -/
lemma run_noop (code : List Char) (opMax : Nat)
    (hcode : ∀ c ∈ code, isOp c = false) :
    ∀ (fuel cnt : Nat) (s : ExecSt), s.pc ≤ code.length →
      cnt + (code.length - s.pc) ≤ opMax → code.length - s.pc ≤ fuel →
      run code opMax fuel cnt s =
        .ok (cnt + (code.length - s.pc), { s with pc := code.length }) := by
  intro fuel
  induction fuel with
  | zero =>
    intro cnt s hpc hcnt hfuel
    have hd : s.pc = code.length := by omega
    rw [run_done code opMax 0 cnt s (by omega)]
    rw [show code.length - s.pc = 0 by omega, ← hd]
    rfl
  | succ f ih =>
    intro cnt s hpc hcnt hfuel
    by_cases hend : s.pc = code.length
    · rw [run_done code opMax (f + 1) cnt s (by omega)]
      rw [show code.length - s.pc = 0 by omega, ← hend]
      rfl
    · have hlt : s.pc < code.length := by omega
      rw [run_succ_ok code opMax f cnt s s hlt (by omega)
        (dispatch_noop code _ s (hcode _ (code.get_mem _ _)))]
      rw [ih (cnt + 1) { s with pc := s.pc + 1 } (by simp; omega)
        (by simp; omega) (by simp; omega)]
      simp
      omega

/-! ### Claims -/

/-- Claim C1 (code bug): the forward scan of `start_loop` does not count
bracket depth — on the balanced program `[[]]` with a zero guard it stops
at the inner closing bracket (index 2, not the matching index 3), after
which the outer `]` meets an empty loop stack and the run fails with
BracketMismatchUnopened instead of succeeding. The unclosed-scan half of
the claim does hold: `[` alone fails with BracketMismatchUnclosed. -/
theorem claim_C1_forward_scan_no_depth :
    scanClose ['[', '[', ']', ']'] 0 = some 2 ∧
    execute context_init ['[', '[', ']', ']'] [] =
      { result := .error .bracketUnopened,
        ctx := { slots := [0], slot := 0, opMax := 100000, opCount := 2 },
        output := [], rest := [] } ∧
    execute context_init ['['] [] =
      { result := .error .bracketUnclosed,
        ctx := { slots := [0], slot := 0, opMax := 100000, opCount := 1 },
        output := [], rest := [] } :=
  ⟨rfl, rfl, rfl⟩

/-- Claim C3: a TapeUnderflow error is raised by a dispatch if and only if
the character is `<` and the pointer sits on the leftmost cell; when that
happens the dispatch loop reports the error with the whole state exactly
as it was at the start of that step (no side effect). -/
theorem claim_C3_tape_underflow :
    ∀ (code : List Char) (c : Char) (s : ExecSt),
      (dispatch code c s = .error .tapeUnderflow ↔ c = '<' ∧ s.ptr = 0) ∧
      (∀ (opMax fuel cnt : Nat) (h : s.pc < code.length),
        code.get ⟨s.pc, h⟩ = '<' → s.ptr = 0 → cnt + 1 ≤ opMax →
        run code opMax (fuel + 1) cnt s =
          .error (.tapeUnderflow, cnt + 1, s)) := by
  intro code c s
  constructor
  · constructor
    · intro hE
      unfold dispatch at hE
      by_cases h1 : c = '+'
      · rw [if_pos h1] at hE
        cases hE
      rw [if_neg h1] at hE
      by_cases h2 : c = '-'
      · rw [if_pos h2] at hE
        cases hE
      rw [if_neg h2] at hE
      by_cases h3 : c = '<'
      · rw [if_pos h3] at hE
        exact ⟨h3, (prev_slot_error_iff s).mp hE⟩
      rw [if_neg h3] at hE
      by_cases h4 : c = '>'
      · rw [if_pos h4] at hE
        cases hE
      rw [if_neg h4] at hE
      by_cases h5 : c = '.'
      · rw [if_pos h5] at hE
        cases hE
      rw [if_neg h5] at hE
      by_cases h6 : c = ','
      · rw [if_pos h6] at hE
        cases hE
      rw [if_neg h6] at hE
      by_cases h7 : c = '['
      · rw [if_pos h7] at hE
        exact absurd (start_loop_error_eq code s _ hE) (by decide)
      rw [if_neg h7] at hE
      by_cases h8 : c = ']'
      · rw [if_pos h8] at hE
        exact absurd (end_loop_error_eq s _ hE) (by decide)
      rw [if_neg h8] at hE
      cases hE
    · rintro ⟨rfl, hp⟩
      unfold dispatch
      rw [if_neg (by decide), if_neg (by decide), if_pos rfl]
      unfold prev_slot
      rw [if_pos hp]
  · intro opMax fuel cnt h hc hp hle
    refine run_succ_err code opMax fuel cnt s .tapeUnderflow h hle ?_
    rw [hc]
    unfold dispatch
    rw [if_neg (by decide), if_neg (by decide), if_pos rfl]
    unfold prev_slot
    rw [if_pos hp]

/-- Witness for C3 at a concrete state: `<` at the leftmost cell. -/
theorem claim_C3_witness :
    dispatch ['<'] '<' ⟨[0], 0, [], [], [], 0⟩ = .error .tapeUnderflow ∧
    run ['<'] 10 1 0 ⟨[0], 0, [], [], [], 0⟩ =
      .error (.tapeUnderflow, 1, ⟨[0], 0, [], [], [], 0⟩) :=
  ⟨(claim_C3_tape_underflow ['<'] '<' ⟨[0], 0, [], [], [], 0⟩).1.mpr ⟨rfl, rfl⟩,
    (claim_C3_tape_underflow ['<'] '<' ⟨[0], 0, [], [], [], 0⟩).2 10 0 0
      (by decide) rfl rfl (by decide)⟩

/-- Claim C4: a `]` dispatched with an empty loop stack fails with
BracketMismatchUnopened whatever the current cell or the input holds; in
particular the one-instruction program `]` fails that way on any input. -/
theorem claim_C4_unopened_bracket :
    (∀ (code : List Char) (s : ExecSt), s.stash = [] →
      dispatch code ']' s = .error .bracketUnopened) ∧
    (∀ input : List Nat, execute context_init [']'] input =
      { result := .error .bracketUnopened,
        ctx := { slots := [0], slot := 0, opMax := 100000, opCount := 1 },
        output := [], rest := input }) := by
  constructor
  · intro code s hs
    unfold dispatch
    rw [if_neg (by decide), if_neg (by decide), if_neg (by decide),
      if_neg (by decide), if_neg (by decide), if_neg (by decide),
      if_neg (by decide), if_pos rfl]
    unfold end_loop
    rw [hs]
  · intro input
    rfl

/-- Witness for C4 at a concrete state with a nonzero cell and pending
input. -/
theorem claim_C4_witness :
    dispatch [] ']' ⟨[5], 0, [9], [], [], 0⟩ = .error .bracketUnopened ∧
    execute context_init [']'] [7] =
      { result := .error .bracketUnopened,
        ctx := { slots := [0], slot := 0, opMax := 100000, opCount := 1 },
        output := [], rest := [7] } :=
  ⟨claim_C4_unopened_bracket.1 [] ⟨[5], 0, [9], [], [], 0⟩ rfl,
    claim_C4_unopened_bracket.2 [7]⟩

/-- Counterexample to Claim C2 as stated: the one-character program made
of the unrecognized character `a` dispatches zero opcodes, yet `execute`
returns 1 — the no-op did increment the execution counter. -/
theorem claim_C2_counterexample :
    (execute context_init ['a'] []).result = .ok 1 ∧
    (execute context_init ['a'] []).result ≠ .ok 0 := by
  refine ⟨rfl, fun h => ?_⟩
  rw [show (execute context_init ['a'] []).result = .ok 1 from rfl] at h
  cases h

/-- Claim C2 as amended: every character the dispatch loop visits costs
one operation, recognized opcode or not; a program of unrecognized
characters only returns its full length from a fresh context, with the
counter advanced by that length and no other effect. -/
theorem claim_C2_noop_cost_amended :
    ∀ (code : List Char) (input : List Nat),
      (∀ c ∈ code, isOp c = false) → code.length ≤ DEFAULT_MAX_OPERATIONS →
      execute context_init code input =
        { result := .ok code.length,
          ctx := { slots := [0], slot := 0, opMax := DEFAULT_MAX_OPERATIONS,
                   opCount := code.length },
          output := [], rest := input } := by
  intro code input hcode hlen
  have h := run_noop code DEFAULT_MAX_OPERATIONS hcode
    (DEFAULT_MAX_OPERATIONS + 1 - 0) 0
    { tape := [0], ptr := 0, input := input, output := [], stash := [], pc := 0 }
    (by simp) (by simpa using hlen) (by simp; omega)
  unfold execute
  simp only [context_init]
  rw [h]
  simp

/-- Witness for the amended C2 on the two-character no-op program `ab`. -/
theorem claim_C2_witness :
    execute context_init ['a', 'b'] [] =
      { result := .ok 2,
        ctx := { slots := [0], slot := 0, opMax := 100000, opCount := 2 },
        output := [], rest := [] } :=
  claim_C2_noop_cost_amended ['a', 'b'] [] (by decide) (by decide)

/-- Claim C5: the default operation ceiling is 100000; `set_max_operations`
overrides it (returning the old value and touching nothing else); whenever
the loop is about to dispatch with the incremented count beyond the
ceiling it fails with OperationLimitExceeded, the state — output written
so far included — exactly as it was at that dispatch boundary; on `..`
with ceiling 1 the first output byte survives the failure. -/
theorem claim_C5_operation_limit :
    context_init.opMax = 100000 ∧
    (∀ (ctx : Ctx) (m : Nat),
      (set_max_operations ctx m).1.opMax = m ∧
      (set_max_operations ctx m).1.slots = ctx.slots ∧
      (set_max_operations ctx m).1.slot = ctx.slot ∧
      (set_max_operations ctx m).1.opCount = ctx.opCount ∧
      (set_max_operations ctx m).2 = ctx.opMax) ∧
    (∀ (code : List Char) (opMax fuel cnt : Nat) (s : ExecSt),
      s.pc < code.length → opMax < cnt + 1 →
      run code opMax fuel cnt s = .error (.opLimit, cnt + 1, s)) ∧
    execute (set_max_operations context_init 1).1 ['.', '.'] [] =
      { result := .error .opLimit,
        ctx := { slots := [0], slot := 0, opMax := 1, opCount := 2 },
        output := [0], rest := [] } :=
  ⟨rfl, fun _ _ => ⟨rfl, rfl, rfl, rfl, rfl⟩, run_limit, rfl⟩

/-- Witness for C5 with ceiling 0 already exceeded before a `+`. -/
theorem claim_C5_witness :
    run ['+'] 0 5 3 ⟨[0], 0, [], [], [], 0⟩ =
      .error (.opLimit, 4, ⟨[0], 0, [], [], [], 0⟩) :=
  claim_C5_operation_limit.2.2.1 ['+'] 0 5 3 ⟨[0], 0, [], [], [], 0⟩
    (by decide) (by decide)

/-- Claim C6: `+` on a cell holding 255 wraps to 0 and `-` on a cell
holding 0 wraps to 255 (neither can fail — both are total functions), and
the dispatch loop keeps every cell in [0, 255] however it ends. -/
theorem claim_C6_byte_wrap :
    (∀ s : ExecSt, s.ptr < s.tape.length → tapeGet s = 255 →
      tapeGet (increment s) = 0) ∧
    (∀ s : ExecSt, s.ptr < s.tape.length → tapeGet s = 0 →
      tapeGet (decrement s) = 255) ∧
    (∀ (code : List Char) (opMax fuel cnt : Nat) (s : ExecSt),
      CellsOk s → CellsOk (runState (run code opMax fuel cnt s))) := by
  refine ⟨fun s hp h255 => ?_, fun s hp h0 => ?_,
    fun code opMax fuel cnt s hc => (run_inv code opMax fuel cnt s).2.2 hc⟩
  · have h : tapeGet (increment s) = (tapeGet s + 1) % 256 :=
      getD_set_self s.tape s.ptr _ 0 hp
    rw [h, h255]
  · have h : tapeGet (decrement s) = (tapeGet s + 255) % 256 :=
      getD_set_self s.tape s.ptr _ 0 hp
    rw [h, h0]

/-- Witness for C6 at one-cell tapes holding 255 and 0. -/
theorem claim_C6_witness :
    tapeGet (increment ⟨[255], 0, [], [], [], 0⟩) = 0 ∧
    tapeGet (decrement ⟨[0], 0, [], [], [], 0⟩) = 255 ∧
    CellsOk (runState (run ['+'] 10 2 0 ⟨[255], 0, [], [], [], 0⟩)) :=
  ⟨claim_C6_byte_wrap.1 ⟨[255], 0, [], [], [], 0⟩ (by decide) rfl,
    claim_C6_byte_wrap.2.1 ⟨[0], 0, [], [], [], 0⟩ (by decide) rfl,
    claim_C6_byte_wrap.2.2 ['+'] 10 2 0 ⟨[255], 0, [], [], [], 0⟩
      (by intro v hv; simp at hv; omega)⟩

/-- Claim C7: `,` with a pending input byte stores it (as a byte) in the
current cell and consumes it; `,` on exhausted input is a strict no-op —
the whole state, the current cell included, is untouched and no error is
raised. -/
theorem claim_C7_read_input :
    ∀ (s : ExecSt) (code : List Char),
      (s.input = [] → read_in s = s ∧ dispatch code ',' s = .ok s) ∧
      (∀ (b : Nat) (rest : List Nat), s.input = b :: rest →
        read_in s =
          { s with tape := s.tape.set s.ptr (b % 256), input := rest } ∧
        (b < 256 → s.ptr < s.tape.length →
          tapeGet (read_in s) = b ∧ (read_in s).input = rest)) := by
  intro s code
  constructor
  · intro hnil
    have h1 : read_in s = s := by
      unfold read_in
      rw [hnil]
    refine ⟨h1, ?_⟩
    unfold dispatch
    rw [if_neg (by decide), if_neg (by decide), if_neg (by decide),
      if_neg (by decide), if_neg (by decide), if_pos rfl, h1]
  · intro b rest hcons
    have h1 : read_in s =
        { s with tape := s.tape.set s.ptr (b % 256), input := rest } := by
      unfold read_in
      rw [hcons]
    refine ⟨h1, fun hb hp => ?_⟩
    rw [h1]
    constructor
    · show (s.tape.set s.ptr (b % 256)).getD s.ptr 0 = b
      rw [getD_set_self s.tape s.ptr _ 0 hp]
      exact Nat.mod_eq_of_lt hb
    · rfl

/-- Witness for C7: exhausted input leaves the cell, a pending byte 65 is
stored and consumed. -/
theorem claim_C7_witness :
    read_in ⟨[9], 0, [], [], [], 0⟩ = ⟨[9], 0, [], [], [], 0⟩ ∧
    tapeGet (read_in ⟨[9], 0, [65], [], [], 0⟩) = 65 ∧
    (read_in ⟨[9], 0, [65], [], [], 0⟩).input = [] :=
  ⟨((claim_C7_read_input ⟨[9], 0, [], [], [], 0⟩ []).1 rfl).1,
    (((claim_C7_read_input ⟨[9], 0, [65], [], [], 0⟩ []).2 65 [] rfl).2
      (by decide) (by decide)).1,
    (((claim_C7_read_input ⟨[9], 0, [65], [], [], 0⟩ []).2 65 [] rfl).2
      (by decide) (by decide)).2⟩

/-- Claim C8: the loop stack is pushed exactly on a `[` whose guard cell
is nonzero, is popped exactly on a `]` whose guard cell is zero, a `]`
with a nonzero guard rewinds the cursor to the stashed `[` position
without popping, and no other dispatched character ever changes it. -/
theorem claim_C8_loop_stack :
    ∀ (code : List Char) (s : ExecSt),
      (tapeGet s ≠ 0 →
        start_loop code s = .ok { s with stash := s.pc :: s.stash }) ∧
      (∀ t, tapeGet s = 0 → start_loop code s = .ok t → t.stash = s.stash) ∧
      (∀ top rest, s.stash = top :: rest → tapeGet s ≠ 0 →
        end_loop s = .ok { s with pc := top }) ∧
      (∀ top rest, s.stash = top :: rest → tapeGet s = 0 →
        end_loop s = .ok { s with stash := rest }) ∧
      (∀ (c : Char) t, c ≠ '[' → c ≠ ']' → dispatch code c s = .ok t →
        t.stash = s.stash) := by
  intro code s
  refine ⟨fun hnz => ?_, fun t hz hok => ?_, fun top rest hs hnz => ?_,
    fun top rest hs hz => ?_, fun c t hc1 hc2 hok => ?_⟩
  · unfold start_loop
    rw [if_pos hnz]
  · unfold start_loop at hok
    rw [if_neg (by simp [hz])] at hok
    split at hok
    · cases hok
      rfl
    · cases hok
  · unfold end_loop
    rw [hs]
    simp only [if_pos hnz]
  · unfold end_loop
    rw [hs]
    simp only [hz]
    rw [if_neg (by simp)]
  · unfold dispatch at hok
    by_cases h1 : c = '+'
    · rw [if_pos h1] at hok
      cases hok
      rfl
    rw [if_neg h1] at hok
    by_cases h2 : c = '-'
    · rw [if_pos h2] at hok
      cases hok
      rfl
    rw [if_neg h2] at hok
    by_cases h3 : c = '<'
    · rw [if_pos h3] at hok
      unfold prev_slot at hok
      split at hok
      · cases hok
      · cases hok
        rfl
    rw [if_neg h3] at hok
    by_cases h4 : c = '>'
    · rw [if_pos h4] at hok
      cases hok
      unfold next_slot
      split <;> rfl
    rw [if_neg h4] at hok
    by_cases h5 : c = '.'
    · rw [if_pos h5] at hok
      cases hok
      rfl
    rw [if_neg h5] at hok
    by_cases h6 : c = ','
    · rw [if_pos h6] at hok
      cases hok
      unfold read_in
      split <;> rfl
    rw [if_neg h6] at hok
    rw [if_neg hc1, if_neg hc2] at hok
    cases hok
    rfl

/-- Witness for C8: a nonzero-guard `[` pushes, a nonzero-guard `]`
rewinds without popping, a zero-guard `]` pops, `+` leaves the stack. -/
theorem claim_C8_witness :
    start_loop ['['] ⟨[1], 0, [], [], [], 0⟩ = .ok ⟨[1], 0, [], [], [0], 0⟩ ∧
    end_loop ⟨[1], 0, [], [], [4], 9⟩ = .ok ⟨[1], 0, [], [], [4], 4⟩ ∧
    end_loop ⟨[0], 0, [], [], [4], 9⟩ = .ok ⟨[0], 0, [], [], [], 9⟩ ∧
    (increment ⟨[1], 0, [], [], [4], 9⟩).stash = [4] :=
  ⟨(claim_C8_loop_stack ['['] ⟨[1], 0, [], [], [], 0⟩).1 (by decide),
    (claim_C8_loop_stack [] ⟨[1], 0, [], [], [4], 9⟩).2.2.1 4 [] rfl (by decide),
    (claim_C8_loop_stack [] ⟨[0], 0, [], [], [4], 9⟩).2.2.2.1 4 [] rfl rfl,
    (claim_C8_loop_stack [] ⟨[1], 0, [], [], [4], 9⟩).2.2.2.2 '+'
      (increment ⟨[1], 0, [], [], [4], 9⟩) (by decide) (by decide) rfl⟩

/-- Claim C9: `move_right` is total (no error path): at the right edge it
appends exactly one zero cell and advances, anywhere else it only
advances; across any run of the dispatch loop the pointer stays on an
existing cell and the tape never shrinks. -/
theorem claim_C9_tape_growth :
    (∀ s : ExecSt, s.ptr + 1 = s.tape.length →
      next_slot s = { s with tape := s.tape ++ [0], ptr := s.ptr + 1 }) ∧
    (∀ s : ExecSt, s.ptr + 1 ≠ s.tape.length →
      next_slot s = { s with ptr := s.ptr + 1 }) ∧
    (∀ (code : List Char) (opMax fuel cnt : Nat) (s : ExecSt), PtrOk s →
      PtrOk (runState (run code opMax fuel cnt s)) ∧
      s.tape.length ≤ (runState (run code opMax fuel cnt s)).tape.length) := by
  refine ⟨fun s h => ?_, fun s h => ?_, fun code opMax fuel cnt s hp =>
    ⟨(run_inv code opMax fuel cnt s).1 hp, (run_inv code opMax fuel cnt s).2.1⟩⟩
  · unfold next_slot
    rw [if_pos h, ← h]
  · unfold next_slot
    rw [if_neg h]

/-- Witness for C9: `>` at the edge appends one zero cell; `>` inside the
tape only moves; a concrete run keeps the pointer valid and the tape no
shorter. -/
theorem claim_C9_witness :
    next_slot ⟨[7], 0, [], [], [], 0⟩ = ⟨[7, 0], 1, [], [], [], 0⟩ ∧
    next_slot ⟨[7, 9], 0, [], [], [], 0⟩ = ⟨[7, 9], 1, [], [], [], 0⟩ ∧
    (PtrOk (runState (run ['>'] 10 2 0 ⟨[7], 0, [], [], [], 0⟩)) ∧
      ([7] : List Nat).length ≤
        (runState (run ['>'] 10 2 0 ⟨[7], 0, [], [], [], 0⟩)).tape.length) :=
  ⟨claim_C9_tape_growth.1 ⟨[7], 0, [], [], [], 0⟩ rfl,
    claim_C9_tape_growth.2.1 ⟨[7, 9], 0, [], [], [], 0⟩ (by decide),
    claim_C9_tape_growth.2.2 ['>'] 10 2 0 ⟨[7], 0, [], [], [], 0⟩
      (by simp [PtrOk])⟩

/-- Claim C10: `execute` never resets the context's operation counter: a
successful call leaves it at its old value plus the returned delta (and
within the ceiling unless nothing was processed), so the ceiling bounds
the cumulative count across calls — concretely, with ceiling 3, running
`++` succeeds with delta 2 and running `++` again on the resulting context
fails with OperationLimitExceeded at cumulative count 4. -/
theorem claim_C10_cumulative_count :
    (∀ (ctx : Ctx) (code : List Char) (input : List Nat) (d : Nat)
        (ctx2 : Ctx) (outp rest2 : List Nat),
      execute ctx code input =
        { result := .ok d, ctx := ctx2, output := outp, rest := rest2 } →
      ctx2.opCount = ctx.opCount + d ∧ ctx2.opMax = ctx.opMax ∧
        (d = 0 ∨ ctx2.opCount ≤ ctx.opMax)) ∧
    execute (set_max_operations context_init 3).1 ['+', '+'] [] =
      { result := .ok 2,
        ctx := { slots := [2], slot := 0, opMax := 3, opCount := 2 },
        output := [], rest := [] } ∧
    execute { slots := [2], slot := 0, opMax := 3, opCount := 2 }
        ['+', '+'] [] =
      { result := .error .opLimit,
        ctx := { slots := [3], slot := 0, opMax := 3, opCount := 4 },
        output := [], rest := [] } := by
  refine ⟨?_, rfl, rfl⟩
  intro ctx code input d ctx2 outp rest2 h
  unfold execute at h
  split at h
  case _ n t heq =>
    obtain ⟨hc1, hc2⟩ := run_ok_count code ctx.opMax _ _ _ _ _ heq
    simp only [ExecOut.mk.injEq, Except.ok.injEq] at h
    obtain ⟨hres, hctx, -, -⟩ := h
    subst hctx
    subst hres
    refine ⟨?_, rfl, ?_⟩
    · show n = ctx.opCount + (n - ctx.opCount)
      omega
    · show n - ctx.opCount = 0 ∨ n ≤ ctx.opMax
      omega
  case _ e n t heq =>
    simp only [ExecOut.mk.injEq] at h
    exact absurd h.1 (by simp)

/-- Witness for C10: the counter/delta law applied to the first concrete
call of the claim. -/
theorem claim_C10_witness :
    ({ slots := [2], slot := 0, opMax := 3, opCount := 2 } : Ctx).opCount =
      (set_max_operations context_init 3).1.opCount + 2 ∧
    ({ slots := [2], slot := 0, opMax := 3, opCount := 2 } : Ctx).opMax =
      (set_max_operations context_init 3).1.opMax ∧
    (2 = 0 ∨
      ({ slots := [2], slot := 0, opMax := 3, opCount := 2 } : Ctx).opCount ≤
        (set_max_operations context_init 3).1.opMax) :=
  claim_C10_cumulative_count.1 (set_max_operations context_init 3).1
    ['+', '+'] [] 2 { slots := [2], slot := 0, opMax := 3, opCount := 2 }
    [] [] rfl

end Brainfck
